import Mathlib

/-!
Verification of the token-bounded chunker and stdin/stdout bridge in
`scripts/tiktoken_bridge.py`, and of the memoizing product-details cache in
`process_transcripts.py`.

The tokenizer itself is an external collaborator (the `tiktoken` library):
the bridge only calls `tiktoken.encoding_for_model(model)` and the resulting
object's `encode`/`decode` methods.  We therefore model a tokenization scheme
abstractly as a pair of total functions (`Codec`), and model
`tiktoken.encoding_for_model` as a lookup `String → Except String Codec`
whose `error` branch stands for the exception raised when the scheme is
unavailable (the `except` handlers in the script turn that exception into an
error value).

Python integers are unbounded and signed, so loop cursors and the
`max_tokens` / `overlap_tokens` parameters are modelled as `Int`.  The
`while` loop of `chunk_text` is modelled with an explicit fuel parameter
(`none` = the loop did not finish within `fuel` iterations); termination
statements say that a specific finite fuel suffices, and the
non-termination result for the buggy progress guard says the loop yields
`none` for every fuel.
-/

/-- Model of a tokenization scheme: the `encode`/`decode` pair obtained from
`tiktoken.encoding_for_model`. -/
structure Codec where
  encode : String → List Nat
  decode : List Nat → String

/-- Python slice `tokens[a:b]` for a cursor pair `(a, b)` with `0 ≤ a ≤ b`
(the chunking loop keeps its cursor non-negative for `max_tokens ≥ 1`, and
`chunk_end ≥ i` there, so this is the only case it exercises). -/
def pySlice (tokens : List Nat) (r : Int × Int) : List Nat :=
  (tokens.drop r.1.toNat).take (r.2 - r.1).toNat

/-- Model of the cursor update at the bottom of the `while` loop of
`chunk_text` in `scripts/tiktoken_bridge.py`:

  i = chunk_end - overlap_tokens if chunk_end < len(tokens) else chunk_end
  if i < 0 or i == i + max_tokens:
      i = chunk_end

where `chunk_end = min(i + max_tokens, len(tokens))` was computed at the top
of the iteration (here `N` is `len(tokens)`). -/
def nextCursor (N max_tokens overlap_tokens i : Int) : Int :=
  let chunk_end := min (i + max_tokens) N
  let i1 := if chunk_end < N then chunk_end - overlap_tokens else chunk_end
  if i1 < 0 ∨ i1 = i1 + max_tokens then chunk_end else i1

/-- Model of the `while i < len(tokens)` loop of `chunk_text`: each iteration
emits `encoding.decode(tokens[i:chunk_end])` with
`chunk_end = min(i + max_tokens, len(tokens))` and then updates the cursor as
in `nextCursor`.  `fuel` bounds the number of iterations; `none` means the
loop did not finish within `fuel` iterations. -/
def chunkLoopFuel (decode : List Nat → String) (tokens : List Nat)
    (max_tokens overlap_tokens : Int) : Nat → Int → Option (List String)
  | 0, _ => none
  | fuel + 1, i =>
    if i < (tokens.length : Int) then
      (chunkLoopFuel decode tokens max_tokens overlap_tokens fuel
          (nextCursor (tokens.length : Int) max_tokens overlap_tokens i)).map
        (fun rest =>
          decode (pySlice tokens (i, min (i + max_tokens) (tokens.length : Int))) :: rest)
    else
      some []

/-- The same loop recorded at the level of the underlying token index ranges:
each iteration contributes the pair `(i, chunk_end)` whose slice the code
decodes.  `N` is `len(tokens)`. -/
def chunkRangesFuel (N max_tokens overlap_tokens : Int) :
    Nat → Int → Option (List (Int × Int))
  | 0, _ => none
  | fuel + 1, i =>
    if i < N then
      (chunkRangesFuel N max_tokens overlap_tokens fuel
          (nextCursor N max_tokens overlap_tokens i)).map
        (fun rest => (i, min (i + max_tokens) N) :: rest)
    else
      some []

/-- Model of `chunk_text(text, max_tokens, model, overlap_tokens)` from
`scripts/tiktoken_bridge.py`: look the scheme up (the `try` around
`tiktoken.encoding_for_model`; an exception becomes an error value), encode
the text and run the chunking loop. -/
def chunk_text (lookup : String → Except String Codec) (text : String)
    (max_tokens : Int) (model : String) (overlap_tokens : Int) (fuel : Nat) :
    Option (Except String (List String)) :=
  match lookup model with
  | .error e => some (.error e)
  | .ok encoding =>
      (chunkLoopFuel encoding.decode (encoding.encode text)
          max_tokens overlap_tokens fuel 0).map Except.ok

/-- Model of `count_tokens(text, model)` from `scripts/tiktoken_bridge.py`:
`len(encoding.encode(text))`, with the scheme-loading exception turned into
an error value. -/
def count_tokens (lookup : String → Except String Codec)
    (text model : String) : Except String Nat :=
  match lookup model with
  | .error e => .error e
  | .ok encoding => .ok (encoding.encode text).length

/-- Fuel that suffices for the chunking loop when the parameters are sane:
one iteration per token, plus the final test (the `+ 1` is added at use
sites).  When the scheme is unavailable the loop never runs. -/
def chunk_fuel (lookup : String → Except String Codec)
    (text model : String) : Nat :=
  match lookup model with
  | .error _ => 0
  | .ok encoding => (encoding.encode text).length

/-- Boolean check that a list of index ranges exactly tiles `[lo, N)` in
order: each range starts where the previous one ended, is non-empty, and the
last one ends at `N`. -/
def coversExactly (N : Int) : Int → List (Int × Int) → Bool
  | lo, [] => lo == N
  | lo, r :: rs => r.1 == lo && decide (r.1 < r.2) && coversExactly N r.2 rs

/-- Model of the JSON request read by the `__main__` block of
`scripts/tiktoken_bridge.py`, with each field already extracted by
`input_data.get(...)`; the defaults are the ones the script passes to
`get`.  A missing `action` key yields `none` (Python `None`). -/
structure BridgeRequest where
  action : Option String := none
  text : String := ""
  model : String := "text-embedding-3-small"
  max_tokens : Int := 8191
  overlap_tokens : Int := 50

/-- The `result` value the bridge writes: an integer (from `count_tokens`),
a list of chunk strings (from `chunk_text`), or an error object
`{"error": msg}`. -/
inductive BridgeResult where
  | count : Nat → BridgeResult
  | chunks : List String → BridgeResult
  | error : String → BridgeResult
deriving DecidableEq

/-- Rendering of the Python `action` value inside the f-string
`f"Unknown action: {action}"`: a missing key prints as `None`, a string
prints as itself. -/
def action_repr : Option String → String
  | none => "None"
  | some s => s

/-- Model of the dispatch in the `__main__` block of
`scripts/tiktoken_bridge.py`.  The result is `none` only when the chunking
loop itself does not finish within `fuel` iterations. -/
def bridge_main (lookup : String → Except String Codec)
    (req : BridgeRequest) (fuel : Nat) : Option BridgeResult :=
  if req.action = some "count_tokens" then
    some (match count_tokens lookup req.text req.model with
      | .ok n => .count n
      | .error e => .error e)
  else if req.action = some "chunk_text" then
    (chunk_text lookup req.text req.max_tokens req.model req.overlap_tokens fuel).map
      (fun r => match r with
        | .ok cs => .chunks cs
        | .error e => .error e)
  else
    some (.error ("Unknown action: " ++ action_repr req.action))

/-!
Model of `fetch_and_cache_product_details` from `process_transcripts.py`.

The Airtable record for a product is modelled by `ProductFields` (the
`fields` dict, each field optional).  The outcome of
`product_table.get(product_id)` together with the subsequent checks
(`product_record and 'fields' in product_record`) and the `except` handler is
modelled as a pure function `String → Option ProductFields`: `some fields`
is a successful fetch of a record with fields, and `none` covers every path
on which the code caches the failure sentinel `None` (exception raised,
falsy record, record without a `fields` key).

The global dict `product_details_cache` is modelled as a function
`String → Option (Option ProductDetails)`: the outer `Option` is key
presence in the dict, the inner one distinguishes cached details from the
cached failure sentinel `None`.
-/

/-- Fields of a product record in the Products table, as read by
`fetch_and_cache_product_details` (`fields.get(...)`, so each is optional;
`none` also stands for an empty value where the code tests truthiness). -/
structure ProductFields where
  product_name : Option String := none
  affiliate_link : Option String := none
  website_address : Option String := none
  description : Option String := none
  main_image_url : Option String := none
  image_2_url : Option String := none
  image_3_url : Option String := none
  image_4_url : Option String := none

/-- The details dict stored in `product_details_cache` for a successfully
fetched product. -/
structure ProductDetails where
  tool_name : Option String
  link : Option String
  description : Option String
  images : List String
  airtable_product_record_id : String
deriving DecidableEq

/-- Python truthiness of an optional string: `None` and `""` are falsy. -/
def truthy : Option String → Bool
  | none => false
  | some s => s != ""

/-- Construction of the cached details dict for one product record:
`link` prefers `Affiliate Link` and falls back to `Website Address` when the
former is falsy, and the image list keeps only truthy entries
(`[img for img in images if img]`). -/
def build_details (fields : ProductFields) (product_id : String) : ProductDetails :=
  { tool_name := fields.product_name
    link := if truthy fields.affiliate_link then fields.affiliate_link
            else fields.website_address
    description := fields.description
    images := ([fields.main_image_url, fields.image_2_url,
                fields.image_3_url, fields.image_4_url].filterMap id).filter
              (fun s => s != "")
    airtable_product_record_id := product_id }

/-- The product-details cache: key presence in the dict is the outer
`Option`, the failure sentinel `None` is the inner `none`. -/
abbrev Cache : Type := String → Option (Option ProductDetails)

/-- Model of the line
`missing_ids = [pid for pid in product_record_ids if pid not in product_details_cache]`. -/
def missing_ids (cache : Cache) (product_record_ids : List String) : List String :=
  product_record_ids.filter (fun pid => (cache pid).isNone)

/-- One iteration of the fetch loop: `cache[product_id]` is set to the built
details on success and to the sentinel `None` on any failure path. -/
def update_cache (product_table : String → Option ProductFields)
    (cache : Cache) (product_id : String) : Cache :=
  fun x =>
    if x = product_id then
      some ((product_table product_id).map (fun f => build_details f product_id))
    else cache x

/-- Model of `fetch_and_cache_product_details(product_table, product_record_ids)`
with the global `product_details_cache` made an explicit argument and the
updated cache returned alongside the result list.  Ids missing from the
cache are fetched in order; then the result list collects, in request order,
the cached values that are truthy (`if detail:` skips both absent keys and
the `None` sentinel). -/
def fetch_and_cache_product_details (product_table : String → Option ProductFields)
    (cache : Cache) (product_record_ids : List String) :
    Cache × List ProductDetails :=
  let cache1 := (missing_ids cache product_record_ids).foldl
    (update_cache product_table) cache
  (cache1, product_record_ids.filterMap (fun pid => (cache1 pid).bind id))

/-! Helper lemmas about the chunking loop. -/

theorem nextCursor_nonneg {N max_tokens overlap_tokens i : Int}
    (h1 : 1 ≤ max_tokens) (hi : 0 ≤ i) (hiN : i < N) :
    0 ≤ nextCursor N max_tokens overlap_tokens i := by
  simp only [nextCursor]
  split_ifs <;> omega

theorem nextCursor_progress {N max_tokens overlap_tokens i : Int}
    (h1 : 1 ≤ max_tokens) (h2 : 0 ≤ overlap_tokens) (h3 : overlap_tokens < max_tokens)
    (hi : 0 ≤ i) (hiN : i < N) :
    i + 1 ≤ nextCursor N max_tokens overlap_tokens i := by
  simp only [nextCursor]
  split_ifs <;> omega

theorem chunkRangesFuel_isSome (N max_tokens overlap_tokens : Int)
    (h1 : 1 ≤ max_tokens) (h2 : 0 ≤ overlap_tokens) (h3 : overlap_tokens < max_tokens) :
    ∀ (fuel : Nat) (i : Int), 0 ≤ i → N ≤ i + fuel →
      (chunkRangesFuel N max_tokens overlap_tokens (fuel + 1) i).isSome := by
  intro fuel
  induction fuel with
  | zero =>
    intro i _hi hN
    have hneg : ¬ i < N := by push_cast at hN; omega
    simp [chunkRangesFuel, hneg]
  | succ fuel ih =>
    intro i hi hN
    by_cases hiN : i < N
    · have hrec := ih (nextCursor N max_tokens overlap_tokens i)
        (nextCursor_nonneg h1 hi hiN)
        (by have := nextCursor_progress h1 h2 h3 hi hiN; push_cast at hN ⊢; omega)
      rw [chunkRangesFuel, if_pos hiN]
      rcases h : chunkRangesFuel N max_tokens overlap_tokens (fuel + 1)
          (nextCursor N max_tokens overlap_tokens i) with _ | v
      · rw [h] at hrec; simp at hrec
      · simp
    · rw [chunkRangesFuel, if_neg hiN]; simp

theorem chunkLoopFuel_eq_ranges (decode : List Nat → String) (tokens : List Nat)
    (max_tokens overlap_tokens : Int) :
    ∀ (fuel : Nat) (i : Int),
      chunkLoopFuel decode tokens max_tokens overlap_tokens fuel i =
        (chunkRangesFuel (tokens.length : Int) max_tokens overlap_tokens fuel i).map
          (List.map (fun r => decode (pySlice tokens r))) := by
  intro fuel
  induction fuel with
  | zero => intro i; rfl
  | succ fuel ih =>
    intro i
    by_cases hiN : i < (tokens.length : Int)
    · rw [chunkLoopFuel, chunkRangesFuel, if_pos hiN, if_pos hiN, ih]
      rcases h : chunkRangesFuel (tokens.length : Int) max_tokens overlap_tokens fuel
          (nextCursor (tokens.length : Int) max_tokens overlap_tokens i) with _ | v
      · simp
      · simp
    · rw [chunkLoopFuel, chunkRangesFuel, if_neg hiN, if_neg hiN]
      rfl

theorem chunkRangesFuel_bounds {N max_tokens overlap_tokens : Int}
    (h1 : 1 ≤ max_tokens) :
    ∀ (fuel : Nat) (i : Int) (rs : List (Int × Int)), 0 ≤ i →
      chunkRangesFuel N max_tokens overlap_tokens fuel i = some rs →
      ∀ r ∈ rs, 0 ≤ r.1 ∧ r.1 < r.2 ∧ r.2 ≤ N ∧ r.2 - r.1 ≤ max_tokens := by
  intro fuel
  induction fuel with
  | zero => intro i rs hi h; simp [chunkRangesFuel] at h
  | succ fuel ih =>
    intro i rs hi h
    by_cases hiN : i < N
    · rw [chunkRangesFuel, if_pos hiN] at h
      rcases hrec : chunkRangesFuel N max_tokens overlap_tokens fuel
          (nextCursor N max_tokens overlap_tokens i) with _ | v
      · rw [hrec] at h; simp at h
      · rw [hrec] at h
        simp only [Option.map_some', Option.some.injEq] at h
        subst h
        intro r hr
        rcases List.mem_cons.mp hr with hr | hr
        · subst hr
          refine ⟨hi, ?_, ?_, ?_⟩ <;> simp <;> omega
        · exact ih (nextCursor N max_tokens overlap_tokens i) v
            (nextCursor_nonneg h1 hi hiN) hrec r hr
    · rw [chunkRangesFuel, if_neg hiN] at h
      simp only [Option.some.injEq] at h
      subst h
      intro r hr
      exact absurd hr (List.not_mem_nil r)

theorem nextCursor_zero_overlap {N max_tokens i : Int}
    (h1 : 1 ≤ max_tokens) (hi : 0 ≤ i) (hiN : i < N) :
    nextCursor N max_tokens 0 i = min (i + max_tokens) N := by
  simp only [nextCursor]
  split_ifs <;> omega

theorem chunkRangesFuel_nil_of_ge {N max_tokens overlap_tokens : Int}
    {fuel : Nat} {i : Int} {rs : List (Int × Int)} (hiN : ¬ i < N)
    (h : chunkRangesFuel N max_tokens overlap_tokens fuel i = some rs) :
    rs = [] := by
  cases fuel with
  | zero => simp [chunkRangesFuel] at h
  | succ fuel =>
    rw [chunkRangesFuel, if_neg hiN] at h
    exact (Option.some.injEq _ _ ▸ h).symm

theorem chunkRangesFuel_covers {N max_tokens : Int} (h1 : 1 ≤ max_tokens) :
    ∀ (fuel : Nat) (i : Int) (rs : List (Int × Int)), 0 ≤ i → i ≤ N →
      chunkRangesFuel N max_tokens 0 fuel i = some rs →
      coversExactly N i rs = true ∧ ∀ r ∈ rs.dropLast, r.2 - r.1 = max_tokens := by
  intro fuel
  induction fuel with
  | zero => intro i rs _ _ h; simp [chunkRangesFuel] at h
  | succ fuel ih =>
    intro i rs hi hiN h
    by_cases hlt : i < N
    · rw [chunkRangesFuel, if_pos hlt] at h
      rcases hrec : chunkRangesFuel N max_tokens 0 fuel (nextCursor N max_tokens 0 i)
          with _ | v
      · rw [hrec] at h; simp at h
      · rw [hrec] at h
        simp only [Option.map_some', Option.some.injEq] at h
        subst h
        rw [nextCursor_zero_overlap h1 hi hlt] at hrec
        have hce1 : 0 ≤ min (i + max_tokens) N := by omega
        have hce2 : min (i + max_tokens) N ≤ N := by omega
        have hice : i < min (i + max_tokens) N := by omega
        obtain ⟨hcov, hfull⟩ := ih (min (i + max_tokens) N) v hce1 hce2 hrec
        constructor
        · simp [coversExactly, hcov, hice]
        · cases v with
          | nil => simp
          | cons b bs =>
            have hceN : min (i + max_tokens) N < N := by
              by_contra hge
              have : (b :: bs : List (Int × Int)) = [] :=
                chunkRangesFuel_nil_of_ge hge hrec
              simp at this
            intro r hr
            rw [List.dropLast_cons₂] at hr
            rcases List.mem_cons.mp hr with hr | hr
            · subst hr; simp; omega
            · exact hfull r hr
    · have : rs = [] := chunkRangesFuel_nil_of_ge hlt h
      subst this
      have : i = N := by omega
      subst this
      simp [coversExactly]

theorem coversExactly_flatten (tokens : List Nat) :
    ∀ (rs : List (Int × Int)) (lo : Int), 0 ≤ lo →
      coversExactly (tokens.length : Int) lo rs = true →
      (rs.map (pySlice tokens)).flatten = tokens.drop lo.toNat := by
  intro rs
  induction rs with
  | nil =>
    intro lo _ hcov
    simp only [coversExactly, beq_iff_eq] at hcov
    have : lo.toNat = tokens.length := by omega
    simp [this]
  | cons r rs ih =>
    intro lo hlo hcov
    obtain ⟨a, b⟩ := r
    simp only [coversExactly, Bool.and_eq_true, beq_iff_eq, decide_eq_true_eq] at hcov
    obtain ⟨⟨ha, hab⟩, hcov⟩ := hcov
    subst ha
    have hrec := ih b (by omega) hcov
    simp only [List.map_cons, List.flatten_cons, hrec, pySlice]
    have hbk : tokens.drop b.toNat =
        (tokens.drop a.toNat).drop (b - a).toNat := by
      rw [List.drop_drop]
      congr 1
      omega
    rw [hbk, List.take_append_drop]

/-! Concrete tokenization scheme used by the witnesses: one token per
character. -/

/-- Per-character tokenization scheme, used to instantiate the abstract
codec in witnesses. -/
def charCodec : Codec where
  encode := fun s => s.data.map Char.toNat
  decode := fun l => String.mk (l.map Char.ofNat)

theorem charCodec_retok (ts : List Nat) :
    (charCodec.encode (charCodec.decode ts)).length ≤ ts.length := by
  simp [charCodec]

/-! Claim theorems. -/

/-- C1: for every text, every `max_tokens ≥ 1` and every `overlap_tokens`
with `0 ≤ overlap_tokens < max_tokens`, the call
`chunk_text(text, max_tokens, model, overlap_tokens)` terminates: the loop
finishes within one iteration per token (fuel `chunk_fuel + 1`), reaching
`i ≥ len(tokens)`. -/
theorem c1_chunk_text_terminates (lookup : String → Except String Codec)
    (text model : String) (max_tokens overlap_tokens : Int)
    (h1 : 1 ≤ max_tokens) (h2 : 0 ≤ overlap_tokens)
    (h3 : overlap_tokens < max_tokens) :
    (chunk_text lookup text max_tokens model overlap_tokens
      (chunk_fuel lookup text model + 1)).isSome := by
  unfold chunk_text chunk_fuel
  rcases lookup model with e | c
  · simp
  · dsimp only
    have := chunkRangesFuel_isSome ((c.encode text).length : Int)
      max_tokens overlap_tokens h1 h2 h3 (c.encode text).length 0 le_rfl
      (by simp)
    rw [chunkLoopFuel_eq_ranges]
    rcases h : chunkRangesFuel ((c.encode text).length : Int) max_tokens
        overlap_tokens ((c.encode text).length + 1) 0 with _ | v
    · rw [h] at this; simp at this
    · simp

theorem c1_witness :
    (chunk_text (fun _ => .ok charCodec) "abc" 2
      "text-embedding-3-small" 1
      (chunk_fuel (fun _ => .ok charCodec) "abc"
        "text-embedding-3-small" + 1)).isSome :=
  c1_chunk_text_terminates _ "abc" "text-embedding-3-small" 2 1
    (by decide) (by decide) (by decide)

/-- C2: for every text, every `max_tokens ≥ 1` and every
`0 ≤ overlap_tokens < max_tokens`, every string emitted by `chunk_text`
re-tokenizes (with the same scheme) to at most `max_tokens` tokens.  Each
emitted chunk decodes a slice of at most `max_tokens` tokens, and
re-encoding a decoded token list yields at most as many tokens as the list
held (a consequence of the spec's invariant that the scheme is a reversible
mapping, taken as a hypothesis since the tokenizer is external). -/
theorem c2_chunks_retokenize_within_budget
    (lookup : String → Except String Codec) (text model : String)
    (max_tokens overlap_tokens : Int) (c : Codec)
    (hlk : lookup model = .ok c)
    (h1 : 1 ≤ max_tokens) (h2 : 0 ≤ overlap_tokens)
    (h3 : overlap_tokens < max_tokens)
    (hretok : ∀ ts : List Nat, (c.encode (c.decode ts)).length ≤ ts.length) :
    ∀ (fuel : Nat) (cs : List String),
      chunk_text lookup text max_tokens model overlap_tokens fuel =
        some (.ok cs) →
      ∀ chunk ∈ cs, ((c.encode chunk).length : Int) ≤ max_tokens := by
  intro fuel cs h chunk hc
  unfold chunk_text at h
  rw [hlk] at h
  dsimp only at h
  rcases hl : chunkLoopFuel c.decode (c.encode text) max_tokens
      overlap_tokens fuel 0 with _ | v
  · rw [hl] at h; simp at h
  · rw [hl] at h
    simp only [Option.map_some', Option.some.injEq, Except.ok.injEq] at h
    subst h
    rw [chunkLoopFuel_eq_ranges] at hl
    rcases hr : chunkRangesFuel (((c.encode text).length : Int)) max_tokens
        overlap_tokens fuel 0 with _ | rs
    · rw [hr] at hl; simp at hl
    · rw [hr] at hl
      simp only [Option.map_some', Option.some.injEq] at hl
      subst hl
      obtain ⟨r, hrmem, rfl⟩ := List.mem_map.mp hc
      have hb := chunkRangesFuel_bounds h1 fuel 0 rs le_rfl hr r hrmem
      have hs := hretok (pySlice (c.encode text) r)
      have hlen : (pySlice (c.encode text) r).length ≤ (r.2 - r.1).toNat := by
        simp only [pySlice, List.length_take]
        omega
      have hmt := hb.2.2.2
      omega

theorem c2_witness :
    ((charCodec.encode "ab").length : Int) ≤ 2 :=
  c2_chunks_retokenize_within_budget (fun _ => .ok charCodec) "abc"
    "text-embedding-3-small" 2 1 charCodec rfl (by decide) (by decide)
    (by decide) charCodec_retok 4 ["ab", "bc"] rfl "ab" (by simp)

/-- C3: refutation of the claimed non-progress guard.  The guard in the code
is `if i < 0 or i == i + max_tokens`, whose second disjunct is never true
for `max_tokens ≥ 1`; with `overlap_tokens = max_tokens` the new cursor is
`chunk_end - overlap_tokens = i`, which is neither negative nor equal to
`i + max_tokens`, so the cursor is never forced to `chunk_end` and the loop
never terminates.  Concretely: a text tokenizing to two tokens, with
`max_tokens = 1` and `overlap_tokens = 1`, makes `chunk_text` loop forever
(`none` for every fuel bound). -/
theorem c3_nontermination_at_overlap_eq_max :
    ∀ fuel : Nat, chunk_text (fun _ => .ok charCodec) "ab" 1
      "text-embedding-3-small" 1 fuel = none := by
  have key : ∀ fuel : Nat,
      chunkLoopFuel charCodec.decode (charCodec.encode "ab") 1 1 fuel 0 = none := by
    intro fuel
    induction fuel with
    | zero => rfl
    | succ fuel ih =>
      rw [chunkLoopFuel, if_pos (by decide)]
      have hnc : nextCursor (((charCodec.encode "ab").length : Int)) 1 1 0 = 0 := by
        decide
      rw [hnc, ih]
      rfl
  intro fuel
  unfold chunk_text
  dsimp only
  rw [key fuel]
  rfl

/-- C4: when the text is non-empty and its token count (as reported by
`count_tokens`) is at most `max_tokens`, `chunk_text` returns exactly one
chunk, equal to the text.  The scheme hypotheses are the spec's lossless
round-trip invariant (`decode (encode t) = t`) and that the empty token
sequence decodes to the empty string. -/
theorem c4_single_chunk_when_text_fits
    (lookup : String → Except String Codec) (text model : String)
    (max_tokens overlap_tokens : Int) (c : Codec) (ntok : Nat)
    (hlk : lookup model = .ok c)
    (h1 : 1 ≤ max_tokens) (h2 : 0 ≤ overlap_tokens)
    (h3 : overlap_tokens < max_tokens)
    (hcount : count_tokens lookup text model = .ok ntok)
    (hle : (ntok : Int) ≤ max_tokens)
    (hne : text ≠ "")
    (hround : c.decode (c.encode text) = text)
    (hnil : c.decode [] = "") :
    chunk_text lookup text max_tokens model overlap_tokens
      (chunk_fuel lookup text model + 1) = some (.ok [text]) := by
  have hct : ntok = (c.encode text).length := by
    unfold count_tokens at hcount
    rw [hlk] at hcount
    exact (Except.ok.injEq _ _ ▸ hcount).symm
  have hN1 : 1 ≤ (c.encode text).length := by
    rcases henc : c.encode text with _ | ⟨t, ts⟩
    · exact absurd (by rw [← hround, henc, hnil]) hne
    · simp
  have hNle : ((c.encode text).length : Int) ≤ max_tokens := by omega
  unfold chunk_text chunk_fuel
  rw [hlk]
  dsimp only
  rw [chunkLoopFuel, if_pos (by omega)]
  have hce : min ((0 : Int) + max_tokens) ((c.encode text).length : Int) =
      ((c.encode text).length : Int) := by omega
  have hnc : nextCursor ((c.encode text).length : Int) max_tokens
      overlap_tokens 0 = ((c.encode text).length : Int) := by
    simp only [nextCursor]
    split_ifs <;> omega
  have hslice : pySlice (c.encode text)
      (0, min ((0 : Int) + max_tokens) ((c.encode text).length : Int)) =
      c.encode text := by
    rw [hce]
    simp only [pySlice]
    have h0 : ((0 : Int)).toNat = 0 := rfl
    have hk : (((c.encode text).length : Int) - 0).toNat =
        (c.encode text).length := by omega
    rw [h0, hk, List.drop_zero, List.take_length]
  rw [hnc]
  have hrec : chunkLoopFuel c.decode (c.encode text) max_tokens overlap_tokens
      (c.encode text).length ((c.encode text).length : Int) = some [] := by
    obtain ⟨m, hm⟩ : ∃ m, (c.encode text).length = m + 1 :=
      ⟨(c.encode text).length - 1, by omega⟩
    rw [hm, chunkLoopFuel, if_neg (by omega)]
  rw [hrec]
  simp only [Option.map_some']
  rw [hslice, hround]

theorem c4_witness :
    chunk_text (fun _ => .ok charCodec) "ab" 5 "text-embedding-3-small" 0
      (chunk_fuel (fun _ => .ok charCodec) "ab" "text-embedding-3-small" + 1) =
      some (.ok ["ab"]) :=
  c4_single_chunk_when_text_fits (fun _ => .ok charCodec) "ab"
    "text-embedding-3-small" 5 0 charCodec 2 rfl (by decide) (by decide)
    (by decide) rfl (by decide) (by decide) (by decide) rfl

/-- C5: with `overlap_tokens = 0`, the token ranges underlying the emitted
chunks exactly tile the token sequence in order (each range starts where the
previous one ended, the first starts at 0, the last ends at the sequence
length), concatenating the ranges' slices reconstructs the token sequence,
and every range except possibly the last spans exactly `max_tokens`
tokens. -/
theorem c5_zero_overlap_exactly_tiles
    (lookup : String → Except String Codec) (text model : String)
    (max_tokens : Int) (c : Codec)
    (hlk : lookup model = .ok c) (h1 : 1 ≤ max_tokens) :
    ∃ rs : List (Int × Int),
      chunkRangesFuel ((c.encode text).length : Int) max_tokens 0
          ((c.encode text).length + 1) 0 = some rs ∧
      chunk_text lookup text max_tokens model 0 ((c.encode text).length + 1) =
        some (.ok (rs.map (fun r => c.decode (pySlice (c.encode text) r)))) ∧
      coversExactly ((c.encode text).length : Int) 0 rs = true ∧
      (∀ r ∈ rs.dropLast, r.2 - r.1 = max_tokens) ∧
      (rs.map (pySlice (c.encode text))).flatten = c.encode text := by
  have hsome := chunkRangesFuel_isSome ((c.encode text).length : Int)
    max_tokens 0 h1 le_rfl h1 (c.encode text).length 0 le_rfl (by simp)
  rcases h : chunkRangesFuel ((c.encode text).length : Int) max_tokens 0
      ((c.encode text).length + 1) 0 with _ | rs
  · rw [h] at hsome; simp at hsome
  · obtain ⟨hcov, hfull⟩ := chunkRangesFuel_covers h1
      ((c.encode text).length + 1) 0 rs le_rfl (by positivity) h
    refine ⟨rs, rfl, ?_, hcov, hfull, ?_⟩
    · unfold chunk_text
      rw [hlk]
      dsimp only
      rw [chunkLoopFuel_eq_ranges, h]
      rfl
    · have := coversExactly_flatten (c.encode text) rs 0 le_rfl hcov
      simpa using this

theorem c5_witness :
    ∃ rs : List (Int × Int),
      chunkRangesFuel ((charCodec.encode "abcde").length : Int) 2 0
          ((charCodec.encode "abcde").length + 1) 0 = some rs ∧
      chunk_text (fun _ => .ok charCodec) "abcde" 2 "text-embedding-3-small" 0
          ((charCodec.encode "abcde").length + 1) =
        some (.ok (rs.map (fun r => charCodec.decode
          (pySlice (charCodec.encode "abcde") r)))) ∧
      coversExactly ((charCodec.encode "abcde").length : Int) 0 rs = true ∧
      (∀ r ∈ rs.dropLast, r.2 - r.1 = 2) ∧
      (rs.map (pySlice (charCodec.encode "abcde"))).flatten =
        charCodec.encode "abcde" :=
  c5_zero_overlap_exactly_tiles (fun _ => .ok charCodec) "abcde"
    "text-embedding-3-small" 2 charCodec rfl (by decide)

/-- C6: for a text tokenizing to exactly 100 tokens, `chunk_text` with
`max_tokens = 40` and `overlap_tokens = 10` emits exactly the three chunks
decoded from the token ranges [0,40), [30,70), [60,100) in that order, and
with `overlap_tokens = 39` the loop still terminates within 101
iterations. -/
theorem c6_hundred_token_example
    (lookup : String → Except String Codec) (text model : String) (c : Codec)
    (hlk : lookup model = .ok c) (h100 : (c.encode text).length = 100) :
    chunk_text lookup text 40 model 10 101 = some (.ok
      [c.decode (pySlice (c.encode text) (0, 40)),
       c.decode (pySlice (c.encode text) (30, 70)),
       c.decode (pySlice (c.encode text) (60, 100))]) ∧
    (chunk_text lookup text 40 model 39 101).isSome := by
  have hcast : ((c.encode text).length : Int) = 100 := by
    rw [h100]; norm_num
  constructor
  · unfold chunk_text
    rw [hlk]
    dsimp only
    rw [chunkLoopFuel_eq_ranges, hcast]
    have hval : chunkRangesFuel 100 40 10 101 0 =
        some [(0, 40), (30, 70), (60, 100)] := by decide
    rw [hval]
    rfl
  · unfold chunk_text
    rw [hlk]
    dsimp only
    rw [chunkLoopFuel_eq_ranges, hcast]
    have hsome := chunkRangesFuel_isSome 100 40 39 (by norm_num) (by norm_num)
      (by norm_num) 100 0 le_rfl (by norm_num)
    rcases h : chunkRangesFuel 100 40 39 101 0 with _ | v
    · rw [h] at hsome; simp at hsome
    · simp

/-- Tokenization scheme mapping every text to 100 tokens, used to
instantiate the C6 statement. -/
def hundredCodec : Codec where
  encode := fun _ => List.range 100
  decode := fun _ => ""

theorem c6_witness :
    chunk_text (fun _ => .ok hundredCodec) "t" 40 "text-embedding-3-small"
        10 101 = some (.ok
      [hundredCodec.decode (pySlice (hundredCodec.encode "t") (0, 40)),
       hundredCodec.decode (pySlice (hundredCodec.encode "t") (30, 70)),
       hundredCodec.decode (pySlice (hundredCodec.encode "t") (60, 100))]) ∧
    (chunk_text (fun _ => .ok hundredCodec) "t" 40 "text-embedding-3-small"
        39 101).isSome :=
  c6_hundred_token_example (fun _ => .ok hundredCodec) "t"
    "text-embedding-3-small" hundredCodec rfl (by simp [hundredCodec])

/-- C7: a text tokenizing to the empty token sequence yields the empty chunk
list from `chunk_text` (for every `max_tokens` and `overlap_tokens`) and 0
from `count_tokens`. -/
theorem c7_empty_input
    (lookup : String → Except String Codec) (text model : String) (c : Codec)
    (hlk : lookup model = .ok c) (henc : c.encode text = []) :
    count_tokens lookup text model = .ok 0 ∧
    ∀ (max_tokens overlap_tokens : Int) (fuel : Nat),
      chunk_text lookup text max_tokens model overlap_tokens (fuel + 1) =
        some (.ok []) := by
  constructor
  · unfold count_tokens
    rw [hlk]
    dsimp only
    rw [henc]
    rfl
  · intro max_tokens overlap_tokens fuel
    unfold chunk_text
    rw [hlk]
    dsimp only
    rw [henc, chunkLoopFuel, if_neg (by decide)]
    rfl

theorem c7_witness :
    count_tokens (fun _ => .ok charCodec) "" "text-embedding-3-small" =
        .ok 0 ∧
    ∀ (max_tokens overlap_tokens : Int) (fuel : Nat),
      chunk_text (fun _ => .ok charCodec) "" max_tokens
          "text-embedding-3-small" overlap_tokens (fuel + 1) =
        some (.ok []) :=
  c7_empty_input (fun _ => .ok charCodec) "" "text-embedding-3-small"
    charCodec rfl rfl

/-- C8: a request whose action is neither `count_tokens` nor `chunk_text`
(including a missing action) makes the bridge return a structured error
result naming the unknown action, not a fault. -/
theorem c8_unknown_action_yields_error
    (lookup : String → Except String Codec) (req : BridgeRequest) (fuel : Nat)
    (h1 : req.action ≠ some "count_tokens")
    (h2 : req.action ≠ some "chunk_text") :
    bridge_main lookup req fuel =
      some (.error ("Unknown action: " ++ action_repr req.action)) := by
  unfold bridge_main
  rw [if_neg h1, if_neg h2]

theorem c8_witness :
    bridge_main (fun _ => .error "no scheme")
        { action := some "frobnicate" } 1 =
      some (.error ("Unknown action: " ++ action_repr (some "frobnicate"))) :=
  c8_unknown_action_yields_error (fun _ => .error "no scheme")
    { action := some "frobnicate" } 1 (by decide) (by decide)

/-- C9: when the tokenization scheme for the requested model is unavailable,
both `count_tokens` and `chunk_text` return the scheme-loading error to the
caller as a value rather than raising, for every text and every parameter:
`chunk_text` returns the error immediately (so no chunks are produced and no
retry happens — both functions consult the scheme exactly once, before any
other work). -/
theorem c9_scheme_unavailable_yields_error
    (lookup : String → Except String Codec) (model e : String)
    (hlk : lookup model = .error e) :
    ∀ (text : String) (max_tokens overlap_tokens : Int) (fuel : Nat),
      count_tokens lookup text model = .error e ∧
      chunk_text lookup text max_tokens model overlap_tokens fuel =
        some (.error e) := by
  intro text max_tokens overlap_tokens fuel
  constructor
  · unfold count_tokens
    rw [hlk]
  · unfold chunk_text
    rw [hlk]

theorem c9_witness :
    count_tokens (fun _ => .error "scheme unavailable") "hello"
        "no-such-model" = .error "scheme unavailable" ∧
    chunk_text (fun _ => .error "scheme unavailable") "hello" 8191
        "no-such-model" 50 3 = some (.error "scheme unavailable") :=
  c9_scheme_unavailable_yields_error (fun _ => .error "scheme unavailable")
    "no-such-model" "scheme unavailable" rfl "hello" 8191 50 3

/-! Helper lemma for the cache: the fetch loop writes exactly the missing
ids, leaving every other key unchanged. -/

theorem foldl_update_cache (product_table : String → Option ProductFields) :
    ∀ (l : List String) (cache : Cache) (x : String),
      (l.foldl (update_cache product_table) cache) x =
        if x ∈ l then some ((product_table x).map (fun f => build_details f x))
        else cache x := by
  intro l
  induction l with
  | nil => intro cache x; simp
  | cons a l ih =>
    intro cache x
    rw [List.foldl_cons, ih]
    by_cases hx : x ∈ l
    · rw [if_pos hx, if_pos (List.mem_cons_of_mem a hx)]
    · rw [if_neg hx]
      by_cases hxa : x = a
      · subst hxa
        rw [if_pos (List.mem_cons_self x l)]
        simp [update_cache]
      · rw [if_neg (by simp [hxa, hx])]
        simp only [update_cache, if_neg hxa]

/-- C10: memoization invariant of the product-details cache.  (a) an id with
an entry in the cache — cached details or the failure sentinel — is never in
`missing_ids`, the list of ids the loop fetches; (b) every fetched id ends
up with a cache entry (success or sentinel); (c) an id whose final cached
value is the failure sentinel contributes no entry to the returned details
list (assuming the cache invariant that cached details carry their own id,
which the fetch loop maintains). -/
theorem c10_cache_memoization
    (product_table : String → Option ProductFields) (cache : Cache)
    (product_record_ids : List String)
    (hwf : ∀ pid d, cache pid = some (some d) →
      d.airtable_product_record_id = pid) :
    (∀ pid, (cache pid).isSome →
      pid ∉ missing_ids cache product_record_ids) ∧
    (∀ pid ∈ missing_ids cache product_record_ids,
      ((fetch_and_cache_product_details product_table cache
        product_record_ids).1 pid).isSome) ∧
    (∀ pid, (fetch_and_cache_product_details product_table cache
        product_record_ids).1 pid = some none →
      ∀ d ∈ (fetch_and_cache_product_details product_table cache
        product_record_ids).2, d.airtable_product_record_id ≠ pid) := by
  have hcache1 : ∀ x, ((missing_ids cache product_record_ids).foldl
      (update_cache product_table) cache) x =
      if x ∈ missing_ids cache product_record_ids
      then some ((product_table x).map (fun f => build_details f x))
      else cache x :=
    fun x => foldl_update_cache product_table _ cache x
  have hF1 : (fetch_and_cache_product_details product_table cache
      product_record_ids).1 =
      (missing_ids cache product_record_ids).foldl
        (update_cache product_table) cache := rfl
  have hF2 : (fetch_and_cache_product_details product_table cache
      product_record_ids).2 =
      product_record_ids.filterMap (fun pid =>
        (((missing_ids cache product_record_ids).foldl
          (update_cache product_table) cache) pid).bind id) := rfl
  have hwf1 : ∀ q d, ((missing_ids cache product_record_ids).foldl
      (update_cache product_table) cache) q = some (some d) →
      d.airtable_product_record_id = q := by
    intro q d h
    rw [hcache1] at h
    by_cases hm : q ∈ missing_ids cache product_record_ids
    · rw [if_pos hm] at h
      simp only [Option.some.injEq] at h
      rcases hpt : product_table q with _ | f
      · rw [hpt] at h; simp at h
      · rw [hpt] at h
        simp only [Option.map_some', Option.some.injEq] at h
        rw [← h]
        rfl
    · rw [if_neg hm] at h
      exact hwf q d h
  refine ⟨?_, ?_, ?_⟩
  · intro pid hsome hmem
    simp only [missing_ids] at hmem
    have h2 := (List.mem_filter.mp hmem).2
    rcases hcp : cache pid with _ | v
    · rw [hcp] at hsome; simp at hsome
    · rw [hcp] at h2; simp at h2
  · intro pid hmem
    rw [hF1, hcache1, if_pos hmem]
    simp
  · intro pid hnone d hd
    rw [hF2] at hd
    obtain ⟨q, hq, hfq⟩ := List.mem_filterMap.mp hd
    rcases hc : ((missing_ids cache product_record_ids).foldl
        (update_cache product_table) cache) q with _ | w
    · rw [hc] at hfq; simp at hfq
    · rw [hc] at hfq
      simp only [Option.some_bind, id_eq] at hfq
      subst hfq
      have hqd := hwf1 q d hc
      rw [hqd]
      intro heq
      subst heq
      rw [hF1] at hnone
      rw [hnone] at hc
      simp at hc

theorem c10_witness :
    (∀ pid, (((fun _ => none) : Cache) pid).isSome →
      pid ∉ missing_ids (fun _ => none) ["p1", "p2"]) ∧
    (∀ pid ∈ missing_ids (fun _ => none) ["p1", "p2"],
      ((fetch_and_cache_product_details
        (fun pid => if pid = "p1" then some {} else none)
        (fun _ => none) ["p1", "p2"]).1 pid).isSome) ∧
    (∀ pid, (fetch_and_cache_product_details
        (fun pid => if pid = "p1" then some {} else none)
        (fun _ => none) ["p1", "p2"]).1 pid = some none →
      ∀ d ∈ (fetch_and_cache_product_details
        (fun pid => if pid = "p1" then some {} else none)
        (fun _ => none) ["p1", "p2"]).2,
        d.airtable_product_record_id ≠ pid) :=
  c10_cache_memoization (fun pid => if pid = "p1" then some {} else none)
    (fun _ => none) ["p1", "p2"] (fun _ _ h => nomatch h)
